import Mathlib

set_option maxRecDepth 20000

/-!
Verification development for the repository-ingestion and file-selection
pipeline of Repo-Prompt-Generator (src-tauri/src/lib.rs).

The Rust source is shallowly embedded: pure path classification and scoring
become Lean functions over the character data of strings; the network-facing
orchestrator `fetch_github_repo` becomes a deterministic function of an
explicit `World` value recording, for each outbound request, the transport
outcome, HTTP status, body text, and (via a parse oracle) the parsed JSON.
Rust strings are modelled through their character lists; machine integers
(`i32` scores, `u32` limits) are modelled as `Int`/`Nat` since no arithmetic
in the source can overflow for any realizable input.
-/

/-! ## String helpers

Models of the `str` operations used by the source (`starts_with`,
`ends_with`, `contains` (substring search), `to_lowercase`, `split('/')`),
implemented over `List Char` so that they evaluate by kernel reduction.
Rust `to_lowercase` is full-Unicode; the model lowercases per `Char.toLower`
(ASCII), which agrees with Rust on all ASCII paths.
-/

def isPrefixL : List Char → List Char → Bool
  | [], _ => true
  | _ :: _, [] => false
  | a :: as, b :: bs => a == b && isPrefixL as bs

def containsL (sub : List Char) : List Char → Bool
  | [] => sub.isEmpty
  | c :: tl => isPrefixL sub (c :: tl) || containsL sub tl

def isSuffixL (sub l : List Char) : Bool :=
  isPrefixL sub.reverse l.reverse

def strStartsWith (s pre : String) : Bool := isPrefixL pre.data s.data

def strEndsWith (s suf : String) : Bool := isSuffixL suf.data s.data

def strContainsSub (s sub : String) : Bool := containsL sub.data s.data

def lowerStr (s : String) : String := ⟨s.data.map Char.toLower⟩

/-- Model of Rust `str::split('/')` collected to a list (always nonempty). -/
def splitSlash : List Char → List (List Char)
  | [] => [[]]
  | c :: tl =>
    if c = '/' then [] :: splitSlash tl
    else
      match splitSlash tl with
      | [] => [[c]]
      | p :: ps => (c :: p) :: ps

/-! ## Path classifier (lib.rs lines 235-263)

`hard_ignore` / `secret_ignore` arrays and the `retain` predicate applied to
the tree paths, transcribed from the source.
-/

def hardIgnoreNames : List String :=
  ["venv", ".venv", "node_modules", ".git", "__pycache__", "dist", "build"]

def secretPatterns : List String :=
  [".env", ".pem", ".key", ".cert", ".p12", "secrets.json",
   "credentials.json", "id_rsa"]

/-- The closure passed to `tree_paths.retain` in `fetch_github_repo`:
a path is kept iff it is neither hard-ignored nor secret. -/
def retainPath (path : String) : Bool :=
  let is_hard_ignored := hardIgnoreNames.any (fun i =>
    strContainsSub path ("/" ++ i ++ "/") || strStartsWith path (i ++ "/"))
  let is_secret := secretPatterns.any (fun s =>
    strEndsWith path s || strContainsSub path ("/" ++ s ++ "/"))
  !is_hard_ignored && !is_secret

/-- Claim-side predicate (spec 4.1): some hard-ignore name appears as a full
leading or inner path segment. -/
def IsHardIgnoredSpec (p : String) : Prop :=
  ∃ name ∈ hardIgnoreNames,
    strContainsSub p ("/" ++ name ++ "/") = true ∨
      strStartsWith p (name ++ "/") = true

/-- Claim-side predicate (spec 4.1): the path ends with a secret suffix or
contains it as a full path segment. -/
def IsSecretSpec (p : String) : Prop :=
  ∃ suf ∈ secretPatterns,
    strEndsWith p suf = true ∨ strContainsSub p ("/" ++ suf ++ "/") = true

instance (p : String) : Decidable (IsHardIgnoredSpec p) := by
  unfold IsHardIgnoredSpec; infer_instance

instance (p : String) : Decidable (IsSecretSpec p) := by
  unfold IsSecretSpec; infer_instance

/-! ## Relevance scorer (`get_file_score`, lib.rs lines 362-431) -/

def auxKeywords : List String :=
  ["build", "setup", "config", "webpack", "vite", "rollup", "gulpfile",
   "backup", "manage.py", "scripts/", "tools/", "docs/", "example", "demo",
   "migrations/"]

def coreDirs : List String := ["src/", "lib/", "app/", "core/", "pkg/", "internal/"]

def importantNames : List String :=
  ["main", "index", "app", "server", "core", "manager", "parser", "api",
   "router", "handler", "controller", "service", "model", "database"]

/-- Transcription of `get_file_score`: a mutable `score` threaded through the
four keyword rules, then the depth penalty. -/
def get_file_score (path : String) : Int :=
  let lower_path := lowerStr path
  let parts := splitSlash lower_path.data
  let file_name : List Char := parts.getLastD []
  let depth : Int := (parts.length : Int)
  let score : Int := 0
  let score := if containsL "/test/".data lower_path.data
      || containsL "/tests/".data lower_path.data
      || containsL "__tests__".data lower_path.data
      || containsL ".test.".data file_name
      || containsL ".spec.".data file_name
      || isPrefixL "test_".data file_name
      || isSuffixL "_test.go".data file_name
    then score - 50 else score
  let score := if auxKeywords.any (fun k => containsL k.data lower_path.data)
    then score - 30 else score
  let score := if coreDirs.any (fun d =>
        isPrefixL d.data lower_path.data ||
          containsL ('/' :: d.data) lower_path.data)
    then score + 20 else score
  let score := if importantNames.any (fun n => containsL n.data file_name)
    then score + 10 else score
  score - depth

/-- Lowercased last path segment, as used by the scorer. -/
def fileNameOf (p : String) : List Char :=
  (splitSlash (lowerStr p).data).getLastD []

/-- Number of slash-separated segments of the lowercased path. -/
def pathDepth (p : String) : Nat := (splitSlash (lowerStr p).data).length

/-- Claim-side rule 1: the path looks test-related. -/
def TestPenaltyApplies (p : String) : Prop :=
  containsL "/test/".data (lowerStr p).data = true ∨
  containsL "/tests/".data (lowerStr p).data = true ∨
  containsL "__tests__".data (lowerStr p).data = true ∨
  containsL ".test.".data (fileNameOf p) = true ∨
  containsL ".spec.".data (fileNameOf p) = true ∨
  isPrefixL "test_".data (fileNameOf p) = true ∨
  isSuffixL "_test.go".data (fileNameOf p) = true

/-- Claim-side rule 2: some auxiliary keyword occurs anywhere in the
lowercased path. -/
def AuxPenaltyApplies (p : String) : Prop :=
  ∃ k ∈ auxKeywords, containsL k.data (lowerStr p).data = true

/-- Claim-side rule 3: some core directory matches as path start or as a
slash-prefixed substring. -/
def CoreBonusApplies (p : String) : Prop :=
  ∃ d ∈ coreDirs,
    isPrefixL d.data (lowerStr p).data = true ∨
      containsL ('/' :: d.data) (lowerStr p).data = true

/-- Claim-side rule 4: the file name contains an important name. -/
def NameBonusApplies (p : String) : Prop :=
  ∃ n ∈ importantNames, containsL n.data (fileNameOf p) = true

instance (p : String) : Decidable (TestPenaltyApplies p) := by
  unfold TestPenaltyApplies; infer_instance

instance (p : String) : Decidable (AuxPenaltyApplies p) := by
  unfold AuxPenaltyApplies; infer_instance

instance (p : String) : Decidable (CoreBonusApplies p) := by
  unfold CoreBonusApplies; infer_instance

instance (p : String) : Decidable (NameBonusApplies p) := by
  unfold NameBonusApplies; infer_instance

/-! ## Candidate selection and ranking (lib.rs lines 351-440) -/

def sourceExtensions : List String :=
  [".ts", ".tsx", ".js", ".jsx", ".py", ".go", ".rs", ".java", ".cpp",
   ".c", ".h", ".cs", ".md"]

def depFiles : List String :=
  ["package.json", "requirements.txt", "go.mod", "Cargo.toml", "pom.xml",
   "build.gradle"]

/-- The two chained filters building `files_to_fetch` from the retained
tree paths. -/
def candidateFiles (treePaths : List String) : List String :=
  (treePaths.filter (fun p =>
      sourceExtensions.any (fun ext => strEndsWith p ext))).filter
    (fun p => !(depFiles.contains p) && lowerStr p != "readme.md")

/-- Insertion step of a stable descending sort by `get_file_score`: an
element is placed before the first already-present element whose score does
not exceed its own, so earlier elements win ties. -/
def insertScored (x : String) : List String → List String
  | [] => [x]
  | y :: ys =>
    if get_file_score y ≤ get_file_score x then x :: y :: ys
    else y :: insertScored x ys

/-- Model of `files_to_fetch.sort_by(|a, b| score(b).cmp(&score(a)))`.
Rust `sort_by` is a stable sort; for the total comparator used here a stable
sort has a unique result, which this insertion sort computes. -/
def sortByScoreDesc (l : List String) : List String :=
  l.foldr insertScored []

/-- Model of Rust `u32::clamp(lo, hi)`. -/
def clampNat (v lo hi : Nat) : Nat :=
  if v < lo then lo else if v > hi then hi else v

/-! ## Content envelope: base64 and UTF-8

`fetch_github_repo` decodes each `content` field by stripping embedded
newlines and carriage returns, base64-decoding
(`base64::engine::general_purpose::STANDARD`) and converting the bytes to
text with `String::from_utf8_lossy`. The base64 engine and the UTF-8
conversion live in third-party crates, so they are modelled from their
standard definitions (RFC 4648 base64 with mandatory canonical padding and
no stray trailing bits; standard UTF-8 with the usual overlong/surrogate/
range checks, emitting U+FFFD on invalid input). Text is represented by its
list of character code points (`Nat`), bytes by `Nat` values below 256.
-/

/-- `content.replace('\n', "").replace('\r', "")` on code points. -/
def stripNewlines (l : List Nat) : List Nat :=
  (l.filter (fun v => v != 10)).filter (fun v => v != 13)

/-- Value of the base64 alphabet character for a sextet. -/
def encVal (n : Nat) : Nat :=
  if n < 26 then 65 + n
  else if n < 52 then 71 + n
  else if n < 62 then n - 4
  else if n = 62 then 43
  else 47

/-- Partial inverse of the base64 alphabet. -/
def decVal (v : Nat) : Option Nat :=
  if 65 ≤ v ∧ v ≤ 90 then some (v - 65)
  else if 97 ≤ v ∧ v ≤ 122 then some (v - 97 + 26)
  else if 48 ≤ v ∧ v ≤ 57 then some (v - 48 + 52)
  else if v = 43 then some 62
  else if v = 47 then some 63
  else none

/-- Standard base64 encoding of a byte list, with `=` (61) padding. -/
def b64Encode : List Nat → List Nat
  | [] => []
  | [a] => [encVal (a / 4), encVal (a % 4 * 16), 61, 61]
  | [a, b] => [encVal (a / 4), encVal (a % 4 * 16 + b / 16), encVal (b % 16 * 4), 61]
  | a :: b :: c :: rest =>
    encVal (a / 4) :: encVal (a % 4 * 16 + b / 16) ::
      encVal (b % 16 * 4 + c / 64) :: encVal (c % 64) :: b64Encode rest

/-- Standard base64 decoding: four-character chunks, canonical padding only,
trailing bits must be zero, anything else is rejected (`none`). -/
def b64Decode : List Nat → Option (List Nat)
  | [] => some []
  | v1 :: v2 :: v3 :: v4 :: rest =>
    match decVal v1, decVal v2 with
    | some n1, some n2 =>
      if v3 = 61 then
        if v4 = 61 ∧ rest = [] ∧ n2 % 16 = 0 then some [n1 * 4 + n2 / 16]
        else none
      else
        match decVal v3 with
        | some n3 =>
          if v4 = 61 then
            if rest = [] ∧ n3 % 4 = 0 then
              some [n1 * 4 + n2 / 16, n2 % 16 * 16 + n3 / 4]
            else none
          else
            match decVal v4 with
            | some n4 =>
              (b64Decode rest).map (fun tl =>
                (n1 * 4 + n2 / 16) :: (n2 % 16 * 16 + n3 / 4) ::
                  (n3 % 4 * 64 + n4) :: tl)
            | none => none
        | none => none
    | _, _ => none
  | _ => none

/-- A Unicode scalar value: in range and not a surrogate. -/
def ValidScalar (c : Nat) : Prop :=
  c < 1114112 ∧ (c < 55296 ∨ 57344 ≤ c)

instance (c : Nat) : Decidable (ValidScalar c) := by
  unfold ValidScalar; infer_instance

/-- Standard UTF-8 encoding of one scalar value. -/
def utf8EncodeChar (c : Nat) : List Nat :=
  if c < 128 then [c]
  else if c < 2048 then [192 + c / 64, 128 + c % 64]
  else if c < 65536 then [224 + c / 4096, 128 + c / 64 % 64, 128 + c % 64]
  else [240 + c / 262144, 128 + c / 4096 % 64, 128 + c / 64 % 64, 128 + c % 64]

/-- UTF-8 encoding of a sequence of scalar values. -/
def utf8Encode (l : List Nat) : List Nat := l.flatMap utf8EncodeChar

/-- A UTF-8 continuation byte. -/
def isCont (b : Nat) : Bool := 128 ≤ b && b < 192

/-- Lossy UTF-8 decoding (model of `String::from_utf8_lossy`): total,
replacing ill-formed sequences by U+FFFD (65533) and resuming at the byte
after the offending lead byte. Written with explicit list shapes so that it
is structurally recursive (and therefore evaluates by kernel reduction). -/
def utf8DecodeLossy : List Nat → List Nat
  | [] => []
  | [b1] => if b1 < 128 then [b1] else [65533]
  | [b1, b2] =>
    if b1 < 128 then b1 :: utf8DecodeLossy [b2]
    else if 194 ≤ b1 && b1 < 224 && isCont b2 then
      [(b1 - 192) * 64 + (b2 - 128)]
    else 65533 :: utf8DecodeLossy [b2]
  | [b1, b2, b3] =>
    if b1 < 128 then b1 :: utf8DecodeLossy [b2, b3]
    else if 194 ≤ b1 && b1 < 224 && isCont b2 then
      ((b1 - 192) * 64 + (b2 - 128)) :: utf8DecodeLossy [b3]
    else if 224 ≤ b1 && b1 < 240 && (isCont b2 && (b1 != 224 || 160 ≤ b2)
        && (b1 != 237 || b2 < 160) && isCont b3) then
      [(b1 - 224) * 4096 + (b2 - 128) * 64 + (b3 - 128)]
    else 65533 :: utf8DecodeLossy [b2, b3]
  | b1 :: b2 :: b3 :: b4 :: rest =>
    if b1 < 128 then b1 :: utf8DecodeLossy (b2 :: b3 :: b4 :: rest)
    else if 194 ≤ b1 && b1 < 224 && isCont b2 then
      ((b1 - 192) * 64 + (b2 - 128)) :: utf8DecodeLossy (b3 :: b4 :: rest)
    else if 224 ≤ b1 && b1 < 240 && (isCont b2 && (b1 != 224 || 160 ≤ b2)
        && (b1 != 237 || b2 < 160) && isCont b3) then
      ((b1 - 224) * 4096 + (b2 - 128) * 64 + (b3 - 128)) ::
        utf8DecodeLossy (b4 :: rest)
    else if 240 ≤ b1 && b1 < 245 && (isCont b2 && (b1 != 240 || 144 ≤ b2)
        && (b1 != 244 || b2 < 144) && isCont b3 && isCont b4) then
      ((b1 - 240) * 262144 + (b2 - 128) * 4096 + (b3 - 128) * 64 +
          (b4 - 128)) :: utf8DecodeLossy rest
    else 65533 :: utf8DecodeLossy (b2 :: b3 :: b4 :: rest)

/-- The content-envelope decode pipeline of `fetch_github_repo` on code
points: strip newlines and carriage returns, base64-decode, lossy UTF-8. -/
def decodeEnvelope (content : List Nat) : Option (List Nat) :=
  (b64Decode (stripNewlines content)).map utf8DecodeLossy

/-! ## JSON values and the network world

`serde_json::Value` is modelled by `Json`; indexing a non-object or a
missing key yields `Json.null`, as with serde. The network is modelled by a
`World`: each of the four kinds of request issued by `fetch_github_repo`
(repository info, recursive tree, readme, per-path contents) resolves to
either a transport error (with its displayed message and source chain) or a
response carrying an HTTP status and the outcome of reading the body text.
JSON parsing of body text (`serde_json::from_str`) is a parse oracle in the
world.
-/

inductive Json where
  | null
  | bool (b : Bool)
  | num (n : Int)
  | str (s : String)
  | arr (elems : List Json)
  | obj (fields : List (String × Json))

/-- `value[key]` indexing of `serde_json::Value`. -/
def Json.index (j : Json) (key : String) : Json :=
  match j with
  | .obj fields =>
    match fields.find? (fun kv => kv.1 == key) with
    | some kv => kv.2
    | none => Json.null
  | _ => Json.null

def Json.asStr : Json → Option String
  | .str s => some s
  | _ => none

def Json.asArr : Json → Option (List Json)
  | .arr es => some es
  | _ => none

/-- `value == "lit"` comparison of a `serde_json::Value` with a string. -/
def Json.isStrEq : Json → String → Bool
  | .str s, t => s == t
  | _, _ => false

deriving instance DecidableEq for Except

/-- A transport failure of `send_async`: displayed message plus the chain of
`source()` causes. -/
structure Transport where
  msg : String
  causes : List String
deriving DecidableEq

/-- An HTTP response: status code plus the result of `.text().await`. -/
structure HttpResp where
  status : Nat
  text : Except String String
deriving DecidableEq

/-- The environment a single `fetch_github_repo` call runs against. -/
structure World where
  infoRes : Except Transport HttpResp
  treeRes : Except Transport HttpResp
  readmeRes : Except Transport HttpResp
  contentRes : String → Except Transport HttpResp
  parse : String → Except String Json

/-- `status.is_success()`: 2xx. -/
def isSuccessStatus (s : Nat) : Bool := 200 ≤ s && s < 300

def infoUrl (owner repo : String) : String :=
  "https://api.github.com/repos/" ++ owner ++ "/" ++ repo

/-- The error message built for a failed info request: the formatted send
error followed by the chain of causes (lib.rs lines 168-176). -/
def transportChainMsg (url : String) (t : Transport) : String :=
  t.causes.foldl (fun acc c => acc ++ " | Caused by: " ++ c)
    ("error sending request for url (" ++ url ++ "): " ++ t.msg)

/-- `resp.text().await.unwrap_or_default()`. -/
def respTextOrEmpty (r : HttpResp) : String :=
  match r.text with
  | .ok t => t
  | .error _ => ""

/-! ## The structures returned to the frontend -/

structure FileEntry where
  path : String
  content : String
deriving DecidableEq

structure RepoInfo where
  owner : String
  repo : String
  default_branch : String
  description : String
deriving DecidableEq

structure GithubRepoData where
  info : RepoInfo
  tree : List String
  readme : String
  dependencies : String
  source_files : List FileEntry
  is_truncated : Bool
deriving DecidableEq

/-! ## Stages of `fetch_github_repo` -/

/-- Metadata stage (lib.rs lines 150-196): transport errors become the
formatted message with cause chain; a non-success status is fatal with a
stage-naming message; then the body is read and parsed, and
`default_branch` / `description` fall back to their defaults. The model
renders the status as its numeric code. -/
def fetchStage1 (w : World) (owner repo : String) :
    Except String (String × String) :=
  match w.infoRes with
  | .error t => .error (transportChainMsg (infoUrl owner repo) t)
  | .ok resp =>
    if isSuccessStatus resp.status then
      match resp.text with
      | .error e => .error e
      | .ok txt =>
        match w.parse txt with
        | .error e => .error e
        | .ok j =>
          .ok ((j.index "default_branch").asStr.getD "main",
               (j.index "description").asStr.getD "No description provided.")
    else
      .error ("Failed to fetch repo info (" ++ toString resp.status ++ "): "
        ++ respTextOrEmpty resp)

/-- Extraction of blob paths from the parsed tree JSON (lib.rs 224-232):
keep entries whose `type` equals `"blob"`, collect their `path` strings,
defaulting to the empty list when `tree` is not an array. -/
def parseTreeBlobs (j : Json) : List String :=
  match (j.index "tree").asArr with
  | some items =>
    items.filterMap (fun i =>
      if (i.index "type").isStrEq "blob" then (i.index "path").asStr
      else none)
  | none => []

/-- Tree stage (lib.rs lines 199-232): transport, body-read and JSON-parse
errors are fatal with the raw error text; the HTTP status of the tree
response is never examined. -/
def treeStage (w : World) : Except String (List String) :=
  match w.treeRes with
  | .error t => .error t.msg
  | .ok resp =>
    match resp.text with
    | .error e => .error e
    | .ok txt =>
      match w.parse txt with
      | .error e => .error e
      | .ok j => .ok (parseTreeBlobs j)

/-- Best-effort decode of one content response (the common pattern of the
readme, manifest and source-file fetches, lib.rs 280-295 / 326-346 /
460-479): any transport error, non-success status, body-read error, parse
error, missing `content` string or base64 failure yields `none`; otherwise
the stripped envelope is decoded and converted lossily to text. -/
def decodeContentResp (w : World) (res : Except Transport HttpResp) :
    Option String :=
  match res with
  | .error _ => none
  | .ok resp =>
    if isSuccessStatus resp.status then
      match resp.text with
      | .error _ => none
      | .ok txt =>
        match w.parse txt with
        | .error _ => none
        | .ok j =>
          match (j.index "content").asStr with
          | none => none
          | some content =>
            match decodeEnvelope (content.data.map Char.toNat) with
            | none => none
            | some cps => some ⟨cps.map Char.ofNat⟩
    else none

/-- Dependency-manifest stage (lib.rs lines 297-348): for each recognized
manifest name present in the retained tree, append its decoded content in
the fixed order, skipping failures. -/
def dependenciesFor (w : World) (treePaths : List String) : String :=
  depFiles.foldl (fun acc file =>
    if treePaths.contains file then
      match decodeContentResp w (w.contentRes file) with
      | some c => acc ++ "\n--- " ++ file ++ " ---\n" ++ c ++ "\n"
      | none => acc
    else acc) ""

/-- `files_to_fetch_names`: the ranked candidate list cut to the clamped
`max_files` limit (lib.rs lines 433-440). -/
def selectedNames (max_files : Option Nat) (treePaths : List String) :
    List String :=
  let files_to_fetch := sortByScoreDesc (candidateFiles treePaths)
  let limit := clampNat (max_files.getD 5) 1 200
  if files_to_fetch.length > limit then files_to_fetch.take limit
  else files_to_fetch

/-- The `source_files` loop (lib.rs lines 442-480): fetch each selected
path, pushing an entry only when the whole decode chain succeeds. -/
def sourceFilesOf (w : World) (max_files : Option Nat)
    (treePaths : List String) : List FileEntry :=
  (selectedNames max_files treePaths).filterMap (fun p =>
    (decodeContentResp w (w.contentRes p)).map (fun c => FileEntry.mk p c))

/-- Final truncation (lib.rs lines 482-486): the returned tree and the
`is_truncated` flag. -/
def truncatedTree (treePaths : List String) : List String × Bool :=
  if treePaths.length > 1000 then (treePaths.take 1000, true)
  else (treePaths, false)

/-- The pure tail of `fetch_github_repo` once metadata and raw tree paths
are available (lib.rs lines 234-500): retain filter, readme and manifest
fetches, candidate selection, stable ranking, clamped limit, per-file
fetches, then tree truncation and assembly. -/
def assembleResult (w : World) (owner repo default_branch description : String)
    (max_files : Option Nat) (rawPaths : List String) : GithubRepoData :=
  let treePaths := rawPaths.filter retainPath
  { info := ⟨owner, repo, default_branch, description⟩,
    tree := (truncatedTree treePaths).1,
    readme := (decodeContentResp w w.readmeRes).getD "",
    dependencies := dependenciesFor w treePaths,
    source_files := sourceFilesOf w max_files treePaths,
    is_truncated := (truncatedTree treePaths).2 }

set_option linter.unusedVariables false in
/-- The full `fetch_github_repo` command as a function of the world. The
`token` argument only adds a header to outbound requests and so does not
influence the modelled control flow. -/
def fetch_github_repo (w : World) (owner repo : String)
    (token : Option String) (max_files : Option Nat) :
    Except String GithubRepoData :=
  match fetchStage1 w owner repo with
  | .error e => .error e
  | .ok (default_branch, description) =>
    match treeStage w with
    | .error e => .error e
    | .ok rawPaths =>
      .ok (assembleResult w owner repo default_branch description max_files
        rawPaths)

/-- The raw blob paths the tree stage produced, `[]` when it failed. -/
def rawTreeOf (w : World) : List String :=
  match treeStage w with
  | .ok l => l
  | .error _ => []

/-- The post-filter (pre-truncation) working tree of a call. -/
def retainedTreeOf (w : World) : List String :=
  (rawTreeOf w).filter retainPath

/-! ## Local repository scan (`scan_local_repository`, lib.rs lines 94-122)

The filesystem under the scanned path is modelled as a tree of named nodes;
`Option FsNode` is `none` when the root does not exist or cannot be read (in
which case the walker yields a single error entry that `filter_map(|e|
e.ok())` drops). For a file, `size` is the metadata result (`none` models a
failed `metadata()` call, which the source does not treat as a skip) and
`content` is the result of `fs::read_to_string` (`none` models an unreadable
file or bytes that are not valid UTF-8, both of which make that call fail).
Paths are accumulated from the node names.
-/

inductive FsNode where
  | file (name : String) (size : Option Nat) (content : Option String)
  | dir (name : String) (children : List FsNode)

/-- The `filter_entry` predicate of the walker (applied to every entry,
including the root). -/
def keepEntry (name : String) : Bool :=
  let is_hidden := strStartsWith name ".git" || name == ".venv"
    || name == ".idea" || name == ".vscode"
  let is_heavy := name == "node_modules" || name == "target" || name == "venv"
    || name == "build" || name == "__pycache__"
  !is_hidden && !is_heavy

mutual

/-- The walk-and-collect loop: pruned subtrees contribute nothing; a
surviving file is pushed unless its metadata reports more than 1,000,000
bytes or reading it as UTF-8 text fails. -/
def collectFiles (pre : String) : FsNode → List FileEntry
  | .file nm size content =>
    if keepEntry nm then
      if (match size with | some s => decide (s > 1000000) | none => false)
      then []
      else
        match content with
        | some c => [⟨pre ++ nm, c⟩]
        | none => []
    else []
  | .dir nm children =>
    if keepEntry nm then collectFilesList (pre ++ nm ++ "/") children else []

def collectFilesList (pre : String) : List FsNode → List FileEntry
  | [] => []
  | n :: ns => collectFiles pre n ++ collectFilesList pre ns

end

/-- The `scan_local_repository` command: the only return statement in the
source is `Ok(files)`. -/
def scan_local_repository (root : Option FsNode) :
    Except String (List FileEntry) :=
  Except.ok
    (match root with
     | none => []
     | some t => collectFiles "" t)

/-! ## Concrete worlds used by counterexamples and witnesses -/

/-- A tree item `{"path": p, "type": "blob"}`. -/
def blobItem (p : String) : Json :=
  Json.obj [("path", Json.str p), ("type", Json.str "blob")]

/-- Tree JSON with 1000 retained filler blobs followed by `main.rs`. -/
def cTreeJsonDeep : Json :=
  Json.obj [("tree", Json.arr (List.replicate 1000 (blobItem "z") ++ [blobItem "main.rs"]))]

/-- A world whose repository has 1001 retained paths, the only source-file
candidate being the last one. -/
def cWorldDeep : World where
  infoRes := .ok ⟨200, .ok "INFO"⟩
  treeRes := .ok ⟨200, .ok "TREE"⟩
  readmeRes := .error ⟨"net down", []⟩
  contentRes := fun p =>
    if p = "main.rs" then .ok ⟨200, .ok "FILE"⟩ else .error ⟨"net down", []⟩
  parse := fun s =>
    if s = "INFO" then .ok (Json.obj [])
    else if s = "TREE" then .ok cTreeJsonDeep
    else if s = "FILE" then .ok (Json.obj [("content", Json.str "")])
    else .error "parse failure"

/-- The bundle `fetch_github_repo` returns against `cWorldDeep`. -/
def cResultDeep : GithubRepoData :=
  { info := ⟨"o", "r", "main", "No description provided."⟩,
    tree := List.replicate 1000 "z",
    readme := "",
    dependencies := "",
    source_files := [⟨"main.rs", ""⟩],
    is_truncated := true }

/-- A world whose tree request comes back with HTTP status 404 and a JSON
error body, everything else healthy. -/
def cWorldBadTreeStatus : World where
  infoRes := .ok ⟨200, .ok "INFO"⟩
  treeRes := .ok ⟨404, .ok "ERRBODY"⟩
  readmeRes := .error ⟨"net down", []⟩
  contentRes := fun _ => .error ⟨"net down", []⟩
  parse := fun s =>
    if s = "INFO" then .ok (Json.obj [])
    else if s = "ERRBODY" then .ok (Json.obj [("message", Json.str "Not Found")])
    else .error "parse failure"

/-- A small healthy world: one-blob tree (`src/main.rs`) whose content
envelope holds base64 `"SGk="` (the text `"Hi"`). -/
def cWorldSmall : World where
  infoRes := .ok ⟨200, .ok "INFO"⟩
  treeRes := .ok ⟨200, .ok "TREE"⟩
  readmeRes := .error ⟨"net down", []⟩
  contentRes := fun p =>
    if p = "src/main.rs" then .ok ⟨200, .ok "FILE"⟩
    else .error ⟨"net down", []⟩
  parse := fun s =>
    if s = "INFO" then .ok (Json.obj [("default_branch", Json.str "main"),
      ("description", Json.str "demo")])
    else if s = "TREE" then .ok (Json.obj [("tree", Json.arr [blobItem "src/main.rs"])])
    else if s = "FILE" then .ok (Json.obj [("content", Json.str "SGk=")])
    else .error "parse failure"

/-- The bundle `fetch_github_repo` returns against `cWorldSmall`. -/
def cResultSmall : GithubRepoData :=
  { info := ⟨"o", "r", "main", "demo"⟩,
    tree := ["src/main.rs"],
    readme := "",
    dependencies := "",
    source_files := [⟨"src/main.rs", "Hi"⟩],
    is_truncated := false }

/-- A world whose metadata request fails at the transport level with a
cause chain. -/
def cWorldInfoDown : World where
  infoRes := .error ⟨"connection refused", ["dns failure"]⟩
  treeRes := .ok ⟨200, .ok "TREE"⟩
  readmeRes := .error ⟨"net down", []⟩
  contentRes := fun _ => .error ⟨"net down", []⟩
  parse := fun _ => .error "parse failure"

/-! ## Helper lemmas: stable ranking -/

theorem mem_insertScored {a x : String} {l : List String} :
    a ∈ insertScored x l ↔ a = x ∨ a ∈ l := by
  induction l with
  | nil => simp [insertScored]
  | cons y ys ih =>
    simp only [insertScored]
    split
    · simp
    · simp [ih]; tauto

theorem mem_sortByScoreDesc {a : String} {l : List String} :
    a ∈ sortByScoreDesc l ↔ a ∈ l := by
  induction l with
  | nil => simp [sortByScoreDesc]
  | cons x xs ih =>
    show a ∈ insertScored x (sortByScoreDesc xs) ↔ _
    simp [mem_insertScored, ih]

theorem pairwise_insertScored {x : String} {l : List String}
    (h : l.Pairwise (fun a b => get_file_score b ≤ get_file_score a)) :
    (insertScored x l).Pairwise
      (fun a b => get_file_score b ≤ get_file_score a) := by
  induction l with
  | nil => simp [insertScored]
  | cons y ys ih =>
    rw [List.pairwise_cons] at h
    obtain ⟨hy, hys⟩ := h
    simp only [insertScored]
    split
    · rename_i hle
      refine List.Pairwise.cons ?_ (List.Pairwise.cons hy hys)
      intro z hz
      rcases List.mem_cons.mp hz with rfl | hz
      · exact hle
      · exact le_trans (hy z hz) hle
    · rename_i hle
      refine List.Pairwise.cons ?_ (ih hys)
      intro z hz
      rcases mem_insertScored.mp hz with rfl | hz
      · exact le_of_not_le hle
      · exact hy z hz

theorem filter_insertScored (s : Int) (x : String) (l : List String) :
    (insertScored x l).filter (fun p => decide (get_file_score p = s)) =
      if get_file_score x = s
      then x :: l.filter (fun p => decide (get_file_score p = s))
      else l.filter (fun p => decide (get_file_score p = s)) := by
  induction l with
  | nil =>
    simp only [insertScored, List.filter]
    by_cases hx : get_file_score x = s <;> simp [hx]
  | cons y ys ih =>
    simp only [insertScored]
    split
    · rename_i hle
      by_cases hx : get_file_score x = s <;> simp [List.filter_cons, hx]
    · rename_i hle
      by_cases hx : get_file_score x = s
      · have hy : ¬ (get_file_score y = s) := by omega
        simp [List.filter_cons, hx, hy, ih]
      · simp [List.filter_cons, hx, ih]

theorem filter_sortByScoreDesc (s : Int) (l : List String) :
    (sortByScoreDesc l).filter (fun p => decide (get_file_score p = s)) =
      l.filter (fun p => decide (get_file_score p = s)) := by
  induction l with
  | nil => rfl
  | cons x xs ih =>
    show (insertScored x (sortByScoreDesc xs)).filter _ = _
    rw [filter_insertScored]
    by_cases hx : get_file_score x = s <;> simp [List.filter_cons, hx, ih]

theorem sorted_sortByScoreDesc (l : List String) :
    (sortByScoreDesc l).Pairwise
      (fun a b => get_file_score b ≤ get_file_score a) := by
  induction l with
  | nil => simp [sortByScoreDesc]
  | cons x xs ih => exact pairwise_insertScored ih

/-! ## Helper lemmas: base64 and UTF-8 round trip -/

theorem decVal_encVal : ∀ n < 64, decVal (encVal n) = some n := by decide

theorem encVal_ne : ∀ n < 64, encVal n ≠ 61 ∧ 43 ≤ encVal n := by decide

theorem b64_roundtrip : ∀ bs : List Nat, (∀ b ∈ bs, b < 256) →
    b64Decode (b64Encode bs) = some bs
  | [], _ => rfl
  | [a], h => by
    have ha : a < 256 := h a (by simp)
    have h1 : a / 4 < 64 := by omega
    have h2 : a % 4 * 16 < 64 := by omega
    have e0 : a % 4 * 16 % 16 = 0 := by omega
    have e1 : a / 4 * 4 + a % 4 * 16 / 16 = a := by omega
    simp only [b64Encode, b64Decode, decVal_encVal _ h1, decVal_encVal _ h2]
    simp [e0, e1]
    omega
  | [a, b], h => by
    have ha : a < 256 := h a (by simp)
    have hb : b < 256 := h b (by simp)
    have h1 : a / 4 < 64 := by omega
    have h2 : a % 4 * 16 + b / 16 < 64 := by omega
    have h3 : b % 16 * 4 < 64 := by omega
    have e0 : b % 16 * 4 % 4 = 0 := by omega
    have e1 : a / 4 * 4 + (a % 4 * 16 + b / 16) / 16 = a := by omega
    have e2 : (a % 4 * 16 + b / 16) % 16 * 16 + b % 16 * 4 / 4 = b := by omega
    simp only [b64Encode, b64Decode, decVal_encVal _ h1, decVal_encVal _ h2,
      decVal_encVal _ h3]
    simp [(encVal_ne _ h3).1, e0, e1, e2]
    omega
  | a :: b :: c :: rest, h => by
    have ha : a < 256 := h a (by simp)
    have hb : b < 256 := h b (by simp)
    have hc : c < 256 := h c (by simp)
    have ih := b64_roundtrip rest (fun x hx => h x (by simp [hx]))
    have h1 : a / 4 < 64 := by omega
    have h2 : a % 4 * 16 + b / 16 < 64 := by omega
    have h3 : b % 16 * 4 + c / 64 < 64 := by omega
    have h4 : c % 64 < 64 := by omega
    have e1 : a / 4 * 4 + (a % 4 * 16 + b / 16) / 16 = a := by omega
    have e2 : (a % 4 * 16 + b / 16) % 16 * 16 + (b % 16 * 4 + c / 64) / 4 = b := by
      omega
    have e3 : (b % 16 * 4 + c / 64) % 4 * 64 + c % 64 = c := by omega
    simp only [b64Encode, b64Decode, decVal_encVal _ h1, decVal_encVal _ h2,
      decVal_encVal _ h3, decVal_encVal _ h4]
    simp [(encVal_ne _ h3).1, (encVal_ne _ h4).1, ih, e1, e2, e3]

theorem utf8_decode_encodeChar (c : Nat) (h : ValidScalar c) (l : List Nat) :
    utf8DecodeLossy (utf8EncodeChar c ++ l) = c :: utf8DecodeLossy l := by
  obtain ⟨hlt, hsur⟩ := h
  unfold utf8EncodeChar
  by_cases h1 : c < 128
  · simp only [if_pos h1]
    rcases l with _ | ⟨x, _ | ⟨y, _ | ⟨z, rest⟩⟩⟩ <;>
      simp [utf8DecodeLossy, h1]
  · by_cases h2 : c < 2048
    · simp only [if_neg h1, if_pos h2]
      have f1 : ¬ (192 + c / 64 < 128) := by omega
      have f2 : (194 ≤ 192 + c / 64 && 192 + c / 64 < 224 &&
          isCont (128 + c % 64)) = true := by
        simp only [isCont, Bool.and_eq_true, decide_eq_true_eq]
        omega
      have hval : (192 + c / 64 - 192) * 64 + (128 + c % 64 - 128) = c := by omega
      rcases l with _ | ⟨x, _ | ⟨y, rest⟩⟩ <;>
        · simp only [List.cons_append, List.nil_append, utf8DecodeLossy]
          rw [if_neg f1, if_pos f2, hval]
    · by_cases h3 : c < 65536
      · simp only [if_neg h1, if_neg h2, if_pos h3]
        have f1 : ¬ (224 + c / 4096 < 128) := by omega
        have f2 : ¬ ((194 ≤ 224 + c / 4096 && 224 + c / 4096 < 224 &&
            isCont (128 + c / 64 % 64)) = true) := by
          simp only [isCont, Bool.and_eq_true, decide_eq_true_eq]
          omega
        have f3 : (224 ≤ 224 + c / 4096 && 224 + c / 4096 < 240 &&
            (isCont (128 + c / 64 % 64) &&
              (224 + c / 4096 != 224 || 160 ≤ 128 + c / 64 % 64)
              && (224 + c / 4096 != 237 || 128 + c / 64 % 64 < 160)
              && isCont (128 + c % 64))) = true := by
          simp only [isCont, Bool.and_eq_true, Bool.or_eq_true,
            decide_eq_true_eq, bne_iff_ne, ne_eq]
          omega
        have hval : (224 + c / 4096 - 224) * 4096 +
            (128 + c / 64 % 64 - 128) * 64 + (128 + c % 64 - 128) = c := by
          omega
        rcases l with _ | ⟨x, rest⟩ <;>
          · simp only [List.cons_append, List.nil_append, utf8DecodeLossy]
            rw [if_neg f1, if_neg f2, if_pos f3, hval]
      · simp only [if_neg h1, if_neg h2, if_neg h3]
        have f1 : ¬ (240 + c / 262144 < 128) := by omega
        have f2 : ¬ ((194 ≤ 240 + c / 262144 && 240 + c / 262144 < 224 &&
            isCont (128 + c / 4096 % 64)) = true) := by
          simp only [isCont, Bool.and_eq_true, decide_eq_true_eq]
          omega
        have f3 : ¬ ((224 ≤ 240 + c / 262144 && 240 + c / 262144 < 240 &&
            (isCont (128 + c / 4096 % 64) &&
              (240 + c / 262144 != 224 || 160 ≤ 128 + c / 4096 % 64)
              && (240 + c / 262144 != 237 || 128 + c / 4096 % 64 < 160)
              && isCont (128 + c / 64 % 64))) = true) := by
          simp only [isCont, Bool.and_eq_true, Bool.or_eq_true,
            decide_eq_true_eq, bne_iff_ne, ne_eq]
          omega
        have f4 : (240 ≤ 240 + c / 262144 && 240 + c / 262144 < 245 &&
            (isCont (128 + c / 4096 % 64) &&
              (240 + c / 262144 != 240 || 144 ≤ 128 + c / 4096 % 64)
              && (240 + c / 262144 != 244 || 128 + c / 4096 % 64 < 144)
              && isCont (128 + c / 64 % 64) && isCont (128 + c % 64))) = true := by
          simp only [isCont, Bool.and_eq_true, Bool.or_eq_true,
            decide_eq_true_eq, bne_iff_ne, ne_eq]
          omega
        have hval : (240 + c / 262144 - 240) * 262144 +
            (128 + c / 4096 % 64 - 128) * 4096 +
            (128 + c / 64 % 64 - 128) * 64 + (128 + c % 64 - 128) = c := by omega
        simp only [List.cons_append, List.nil_append, utf8DecodeLossy]
        rw [if_neg f1, if_neg f2, if_neg f3, if_pos f4, hval]
        rfl

theorem utf8_roundtrip (cps : List Nat) (h : ∀ c ∈ cps, ValidScalar c) :
    utf8DecodeLossy (utf8Encode cps) = cps := by
  induction cps with
  | nil => rfl
  | cons c cs ih =>
    have hc : ValidScalar c := h c (by simp)
    have hcs : ∀ x ∈ cs, ValidScalar x := fun x hx => h x (by simp [hx])
    show utf8DecodeLossy (utf8EncodeChar c ++ utf8Encode cs) = c :: cs
    rw [utf8_decode_encodeChar c hc, ih hcs]

theorem utf8EncodeChar_lt_256 (c : Nat) (hlt : c < 1114112) :
    ∀ b ∈ utf8EncodeChar c, b < 256 := by
  unfold utf8EncodeChar
  split_ifs <;> intro b hb <;> simp at hb <;> omega

theorem utf8Encode_lt_256 (cps : List Nat) (h : ∀ c ∈ cps, ValidScalar c) :
    ∀ b ∈ utf8Encode cps, b < 256 := by
  intro b hb
  unfold utf8Encode at hb
  rw [List.mem_flatMap] at hb
  obtain ⟨c, hc, hbc⟩ := hb
  exact utf8EncodeChar_lt_256 c (h c hc).1 b hbc

theorem b64Encode_ge_43 : ∀ bs : List Nat, ∀ v ∈ b64Encode bs, 43 ≤ v
  | [] => by simp [b64Encode]
  | [a] => by
    have h61 : (43 : Nat) ≤ 61 := by omega
    have he : ∀ n : Nat, 43 ≤ encVal n := by
      intro n; unfold encVal; split_ifs <;> omega
    simp [b64Encode, he, h61]
  | [a, b] => by
    have he : ∀ n : Nat, 43 ≤ encVal n := by
      intro n; unfold encVal; split_ifs <;> omega
    simp [b64Encode, he]
  | a :: b :: c :: rest => by
    have ih := b64Encode_ge_43 rest
    have he : ∀ n : Nat, 43 ≤ encVal n := by
      intro n; unfold encVal; split_ifs <;> omega
    simp only [b64Encode, List.mem_cons]
    rintro v (rfl | rfl | rfl | rfl | hv)
    · exact he _
    · exact he _
    · exact he _
    · exact he _
    · exact ih v hv

theorem stripNewlines_b64Encode (bs : List Nat) :
    stripNewlines (b64Encode bs) = b64Encode bs := by
  unfold stripNewlines
  rw [List.filter_eq_self.mpr, List.filter_eq_self.mpr]
  · intro v hv
    have := b64Encode_ge_43 bs v hv
    simp
    omega
  · intro v hv
    rw [List.filter_eq_self.mpr] at hv
    · have := b64Encode_ge_43 bs v hv
      simp
      omega
    · intro u hu
      have := b64Encode_ge_43 bs u hu
      simp
      omega

/-! ## Helper lemmas: inverting a successful ingestion -/

theorem fetch_ok_inv {w : World} {o r : String} {tok : Option String}
    {mf : Option Nat} {d : GithubRepoData}
    (h : fetch_github_repo w o r tok mf = .ok d) :
    ∃ db desc raw, fetchStage1 w o r = .ok (db, desc) ∧
      treeStage w = .ok raw ∧ d = assembleResult w o r db desc mf raw := by
  unfold fetch_github_repo at h
  cases h1 : fetchStage1 w o r with
  | error e => rw [h1] at h; cases h
  | ok pr =>
    obtain ⟨db, desc⟩ := pr
    rw [h1] at h
    cases h2 : treeStage w with
    | error e => rw [h2] at h; cases h
    | ok raw =>
      rw [h2] at h
      cases h
      exact ⟨db, desc, raw, rfl, rfl, rfl⟩

theorem retainedTreeOf_eq {w : World} {raw : List String}
    (h : treeStage w = .ok raw) :
    retainedTreeOf w = raw.filter retainPath := by
  unfold retainedTreeOf rawTreeOf
  rw [h]

theorem assembleResult_tree (w : World) (o r db desc : String)
    (mf : Option Nat) (raw : List String) :
    (assembleResult w o r db desc mf raw).tree =
      (truncatedTree (raw.filter retainPath)).1 := rfl

theorem assembleResult_is_truncated (w : World) (o r db desc : String)
    (mf : Option Nat) (raw : List String) :
    (assembleResult w o r db desc mf raw).is_truncated =
      (truncatedTree (raw.filter retainPath)).2 := rfl

theorem assembleResult_source_files (w : World) (o r db desc : String)
    (mf : Option Nat) (raw : List String) :
    (assembleResult w o r db desc mf raw).source_files =
      sourceFilesOf w mf (raw.filter retainPath) := rfl

/-- Any error produced by the tree stage aborts the whole call with that
error, once the metadata stage has succeeded. -/
theorem fetch_tree_error {w : World} {o r : String} {tok : Option String}
    {mf : Option Nat} {e db desc : String}
    (hstage : fetchStage1 w o r = .ok (db, desc))
    (htree : treeStage w = .error e) :
    fetch_github_repo w o r tok mf = .error e := by
  unfold fetch_github_repo
  rw [hstage, htree]

/-! ## Claim theorems -/

/-- C1 (amended): in every successful `fetch_github_repo` call whose tree
was not truncated, every returned source file has its path in the returned
tree. (As originally stated, with "possibly truncated tree", the claim is
refuted by `c1_counterexample`: truncation happens after selection.) -/
theorem c1_source_paths_in_untruncated_tree (w : World) (o r : String)
    (tok : Option String) (mf : Option Nat) (d : GithubRepoData)
    (h : fetch_github_repo w o r tok mf = .ok d)
    (hnt : d.is_truncated = false) :
    ∀ e ∈ d.source_files, e.path ∈ d.tree := by
  obtain ⟨db, desc, raw, h1, h2, rfl⟩ := fetch_ok_inv h
  rw [assembleResult_is_truncated] at hnt
  rw [assembleResult_source_files, assembleResult_tree]
  intro e he
  unfold sourceFilesOf at he
  rw [List.mem_filterMap] at he
  obtain ⟨p, hp, hpe⟩ := he
  have hpath : e.path = p := by
    cases hdc : decodeContentResp w (w.contentRes p) with
    | none => rw [hdc] at hpe; cases hpe
    | some c => rw [hdc] at hpe; cases hpe; rfl
  have hsel : p ∈ sortByScoreDesc (candidateFiles (raw.filter retainPath)) := by
    unfold selectedNames at hp
    dsimp only at hp
    split at hp
    · exact List.mem_of_mem_take hp
    · exact hp
  have hcand : p ∈ candidateFiles (raw.filter retainPath) :=
    mem_sortByScoreDesc.mp hsel
  have htree : p ∈ raw.filter retainPath := by
    unfold candidateFiles at hcand
    exact List.mem_of_mem_filter (List.mem_of_mem_filter hcand)
  unfold truncatedTree at hnt ⊢
  split at hnt
  · cases hnt
  · rename_i hlen
    rw [if_neg hlen]
    rw [hpath]
    exact htree

/-- C1 (counterexample): against `cWorldDeep` (1001 retained paths whose
only candidate is the last one) the call succeeds, selects `main.rs` as a
source file, truncates the tree to the first 1000 paths, and `main.rs` is
not an element of the returned tree. -/
theorem c1_counterexample :
    fetch_github_repo cWorldDeep "o" "r" none none = Except.ok cResultDeep ∧
      cResultDeep.source_files = [⟨"main.rs", ""⟩] ∧
      cResultDeep.is_truncated = true ∧
      "main.rs" ∉ cResultDeep.tree := by
  refine ⟨by decide, rfl, rfl, ?_⟩
  intro hmem
  exact absurd
    (List.eq_of_mem_replicate (hmem : "main.rs" ∈ List.replicate 1000 "z"))
    (by decide)

/-- C1 (witness): the amended theorem applied to the healthy one-file world
`cWorldSmall`. -/
theorem c1_witness :
    FileEntry.path ⟨"src/main.rs", "Hi"⟩ ∈ cResultSmall.tree :=
  c1_source_paths_in_untruncated_tree cWorldSmall "o" "r" none none
    cResultSmall (by decide) (by decide) ⟨"src/main.rs", "Hi"⟩ (by decide)

/-- C2 (amended): a metadata transport error is fatal with the formatted
url/cause-chain message; a non-success metadata status is fatal with the
stage-naming status message; a tree transport error, a tree body-read
error and a tree JSON-parse error are each fatal but propagate only the
underlying error text. (The original claim also made a non-success tree
HTTP status fatal; `c2_counterexample` refutes that: the status of the
tree response is never examined.) -/
theorem c2_fatal_stage_errors (w : World) (o r : String)
    (tok : Option String) (mf : Option Nat) :
    (∀ t, w.infoRes = .error t →
      fetch_github_repo w o r tok mf =
        .error (transportChainMsg (infoUrl o r) t)) ∧
    (∀ resp, w.infoRes = .ok resp → isSuccessStatus resp.status = false →
      fetch_github_repo w o r tok mf =
        .error ("Failed to fetch repo info (" ++ toString resp.status ++ "): "
          ++ respTextOrEmpty resp)) ∧
    (∀ t db desc, fetchStage1 w o r = .ok (db, desc) → w.treeRes = .error t →
      fetch_github_repo w o r tok mf = .error t.msg) ∧
    (∀ st e db desc, fetchStage1 w o r = .ok (db, desc) →
      w.treeRes = .ok ⟨st, .error e⟩ →
      fetch_github_repo w o r tok mf = .error e) ∧
    (∀ st txt e db desc, fetchStage1 w o r = .ok (db, desc) →
      w.treeRes = .ok ⟨st, .ok txt⟩ → w.parse txt = .error e →
      fetch_github_repo w o r tok mf = .error e) := by
  refine ⟨?_, ?_, ?_, ?_, ?_⟩
  · intro t ht
    unfold fetch_github_repo fetchStage1
    rw [ht]
  · intro resp hresp hstat
    unfold fetch_github_repo fetchStage1
    rw [hresp]
    dsimp only
    rw [if_neg (by simp [hstat])]
  · intro t db desc hstage ht
    refine fetch_tree_error hstage ?_
    unfold treeStage
    rw [ht]
  · intro st e db desc hstage hresp
    refine fetch_tree_error hstage ?_
    unfold treeStage
    rw [hresp]
  · intro st txt e db desc hstage hresp hparse
    refine fetch_tree_error hstage ?_
    unfold treeStage
    rw [hresp]
    show (match w.parse txt with
      | .error err => Except.error err
      | .ok j => Except.ok (parseTreeBlobs j)) = Except.error e
    rw [hparse]

/-- C2 (counterexample): against `cWorldBadTreeStatus` the tree request
returns HTTP 404 (a non-success status), yet the whole ingestion succeeds,
because the tree response status is never checked and its JSON error body
parses, yielding an empty tree. -/
theorem c2_counterexample :
    cWorldBadTreeStatus.treeRes = Except.ok ⟨404, Except.ok "ERRBODY"⟩ ∧
      isSuccessStatus 404 = false ∧
      (fetch_github_repo cWorldBadTreeStatus "o" "r" none none).isOk = true :=
  ⟨rfl, rfl, by decide⟩

/-- C2 (witness): the amended theorem applied to a world whose metadata
request dies at the transport level with a cause chain. -/
theorem c2_witness :
    fetch_github_repo cWorldInfoDown "o" "r" none none =
      Except.error
        ("error sending request for url (https://api.github.com/repos/o/r): connection refused | Caused by: dns failure") := by
  have h := (c2_fatal_stage_errors cWorldInfoDown "o" "r" none none).1
    ⟨"connection refused", ["dns failure"]⟩ rfl
  exact h

/-- C3 (amended): a retained tree path is a candidate source file iff it
ends with one of the thirteen source extensions, is not one of the six
dependency-manifest names, and its whole lowercased path is not exactly
"readme.md". (The original claim excluded by lowercased file name, making
"docs/README.md" a non-candidate; `c3_counterexample` refutes that.) -/
theorem c3_candidate_characterization (l : List String) (p : String) :
    p ∈ candidateFiles l ↔
      p ∈ l ∧ (∃ ext ∈ sourceExtensions, strEndsWith p ext = true) ∧
        p ∉ depFiles ∧ lowerStr p ≠ "readme.md" := by
  unfold candidateFiles
  simp [List.mem_filter, List.any_eq_true, Bool.and_eq_true,
    Bool.not_eq_true', bne_iff_ne, and_assoc]
  tauto

/-- C3 (counterexample): "docs/README.md" has lowercased file name
"readme.md" and yet is a candidate (the code compares the whole lowercased
path against "readme.md"). -/
theorem c3_counterexample :
    candidateFiles ["docs/README.md"] = ["docs/README.md"] ∧
      (⟨fileNameOf "docs/README.md"⟩ : String) = "readme.md" := by decide

/-- C4: a path is retained by the working-tree filter iff it is neither
hard-ignored (a listed name as leading or inner full segment) nor secret
(a listed suffix at the end or as a full segment); in particular
"builder/x" is not hard-ignored, since partial segment matches do not
count. -/
theorem c4_retention_characterization :
    (∀ p, retainPath p = true ↔ ¬ IsHardIgnoredSpec p ∧ ¬ IsSecretSpec p) ∧
      ¬ IsHardIgnoredSpec "builder/x" := by
  refine ⟨fun p => ?_, by decide⟩
  unfold retainPath IsHardIgnoredSpec IsSecretSpec
  simp [List.any_eq_true, Bool.or_eq_true, Bool.and_eq_true,
    Bool.not_eq_true', List.eq_nil_iff_forall_not_mem, not_exists]

/-- C5: `get_file_score` is the independent sum of the test penalty (-50),
the auxiliary-keyword penalty (-30), the core-directory bonus (+20), the
important-name bonus (+10), each contributing at most once, minus the
segment depth. -/
theorem c5_score_additive (p : String) :
    get_file_score p =
      (if TestPenaltyApplies p then (-50 : Int) else 0)
      + (if AuxPenaltyApplies p then (-30 : Int) else 0)
      + (if CoreBonusApplies p then (20 : Int) else 0)
      + (if NameBonusApplies p then (10 : Int) else 0)
      - (pathDepth p : Int) := by
  simp only [get_file_score, TestPenaltyApplies, AuxPenaltyApplies,
    CoreBonusApplies, NameBonusApplies, fileNameOf, pathDepth,
    List.any_eq_true, Bool.or_eq_true, or_assoc]
  split_ifs <;> omega

/-- C6: every successful call returns a tree of at most 1000 paths;
`is_truncated` is true iff the post-filter tree exceeded 1000 entries, in
which case the returned tree is its first 1000 paths in original order. -/
theorem c6_truncation (w : World) (o r : String) (tok : Option String)
    (mf : Option Nat) (d : GithubRepoData)
    (h : fetch_github_repo w o r tok mf = .ok d) :
    d.tree.length ≤ 1000 ∧
      (d.is_truncated = true ↔ 1000 < (retainedTreeOf w).length) ∧
      (d.is_truncated = true → d.tree = (retainedTreeOf w).take 1000) := by
  obtain ⟨db, desc, raw, h1, h2, rfl⟩ := fetch_ok_inv h
  rw [retainedTreeOf_eq h2, assembleResult_tree, assembleResult_is_truncated]
  unfold truncatedTree
  by_cases hlen : (raw.filter retainPath).length > 1000
  · rw [if_pos hlen]
    dsimp only
    refine ⟨?_, by simpa using hlen, fun _ => rfl⟩
    simp [List.length_take]
  · rw [if_neg hlen]
    dsimp only
    exact ⟨by omega, by simpa using hlen, fun hfalse => by cases hfalse⟩

/-- C6 (witness): the truncation theorem applied to `cWorldSmall`. -/
theorem c6_witness :
    cResultSmall.tree.length ≤ 1000 ∧
      (cResultSmall.is_truncated = true ↔
        1000 < (retainedTreeOf cWorldSmall).length) ∧
      (cResultSmall.is_truncated = true →
        cResultSmall.tree = (retainedTreeOf cWorldSmall).take 1000) :=
  c6_truncation cWorldSmall "o" "r" none none cResultSmall (by decide)

/-- C7: every successful call returns at most
`clamp(max_files.unwrap_or(5), 1, 200)` source files, for any `max_files`
argument including `none` and `some 0`. -/
theorem c7_source_files_limit (w : World) (o r : String)
    (tok : Option String) (mf : Option Nat) (d : GithubRepoData)
    (h : fetch_github_repo w o r tok mf = .ok d) :
    d.source_files.length ≤ clampNat (mf.getD 5) 1 200 := by
  obtain ⟨db, desc, raw, h1, h2, rfl⟩ := fetch_ok_inv h
  rw [assembleResult_source_files]
  unfold sourceFilesOf selectedNames
  refine le_trans (List.length_filterMap_le _ _) ?_
  dsimp only
  split
  · simp [List.length_take]
  · rename_i hlen
    omega

/-- C7 (witness): the limit theorem applied to `cWorldSmall` with
`max_files = none`. -/
theorem c7_witness :
    cResultSmall.source_files.length ≤
      clampNat ((none : Option Nat).getD 5) 1 200 :=
  c7_source_files_limit cWorldSmall "o" "r" none none cResultSmall (by decide)

/-- C8: the candidate ranking used by `fetch_github_repo` sorts by score
descending, and is stable: for every score value the subsequence of paths
carrying that score is exactly their subsequence in the input order. -/
theorem c8_ranking_stable (l : List String) :
    (sortByScoreDesc l).Pairwise
      (fun a b => get_file_score b ≤ get_file_score a) ∧
      ∀ s : Int, (sortByScoreDesc l).filter
          (fun p => decide (get_file_score p = s)) =
        l.filter (fun p => decide (get_file_score p = s)) :=
  ⟨sorted_sortByScoreDesc l, fun s => filter_sortByScoreDesc s l⟩

/-- C9: for every sequence of Unicode scalar values, any string obtained
from the base64 encoding of its UTF-8 bytes by inserting newline and
carriage-return characters at arbitrary positions (exactly the strings
whose newline-stripped form is that encoding) decodes through the content
pipeline back to the original sequence. -/
theorem c9_envelope_roundtrip (cps : List Nat) (h : ∀ c ∈ cps, ValidScalar c)
    (s : List Nat) (hs : stripNewlines s = b64Encode (utf8Encode cps)) :
    decodeEnvelope s = some cps := by
  unfold decodeEnvelope
  rw [hs, b64_roundtrip _ (utf8Encode_lt_256 cps h)]
  simp [utf8_roundtrip cps h]

/-- C9 (witness): the round trip on the two scalars "H", "λ" with a
newline inserted in front and a carriage return appended. -/
theorem c9_witness :
    decodeEnvelope (10 :: (b64Encode (utf8Encode [72, 955]) ++ [13])) =
      some [72, 955] :=
  c9_envelope_roundtrip [72, 955] (by decide) _ (by decide)

/-- C10: `scan_local_repository` always returns `Ok`; a nonexistent root
yields the empty list; and a file whose metadata reports more than
1,000,000 bytes, or whose read as UTF-8 text fails (unreadable or invalid
bytes), contributes nothing to the result. -/
theorem c10_scan_total :
    (∀ root, (scan_local_repository root).isOk = true) ∧
      scan_local_repository none = Except.ok [] ∧
      (∀ pre nm size content,
        ((∃ s, size = some s ∧ 1000000 < s) ∨ content = none) →
        collectFiles pre (FsNode.file nm size content) = []) := by
  refine ⟨fun root => by cases root <;> rfl, rfl, ?_⟩
  intro pre nm size content h
  unfold collectFiles
  rcases h with ⟨s, rfl, hs⟩ | rfl
  · simp [hs]
  · cases size <;> simp

/-- C10 (witness): the omission clause applied to a 2,000,000-byte file. -/
theorem c10_witness :
    collectFiles "" (FsNode.file "big.bin" (some 2000000) (some "data")) = [] :=
  c10_scan_total.2.2 "" "big.bin" (some 2000000) (some "data")
    (Or.inl ⟨2000000, rfl, by omega⟩)
